import Mathlib

/-!
# Verification of the Memex search-index utility module

A shallow embedding of `src/search/search-index/util.js` (the indexing and
lookup engine of the Memex browsing-history index), together with proofs of
the specified properties.

JS strings are modelled as `List Char`; the ordered key-value store is
modelled explicitly where an operation consumes it; asynchronous stream
iteration is modelled as structural recursion over the finite sequence of
data events the stream delivers.
-/

set_option autoImplicit false

namespace Memex

/-- JS strings, modelled as lists of characters. -/
abbrev Str := List Char

/-- Boolean prefix test on character lists (anchored match, as the `^...`
regular expression and template-literal prefixes behave in the source). -/
def isPre : Str → Str → Bool
  | [], _ => true
  | _ :: _, [] => false
  | a :: as, b :: bs => a == b && isPre as bs

/-- The seven key namespaces that have an encoder in `keyGen`. -/
inductive Namespace where
  | domain | tag | url | term | title | visit | bookmark
  deriving DecidableEq, Repr

/-- The namespace prefix each `keyGen` entry prepends (template literal
`` `domain/${key}` `` and so on). -/
def nsHead : Namespace → Str
  | .domain => ['d', 'o', 'm', 'a', 'i', 'n', '/']
  | .tag => ['t', 'a', 'g', '/']
  | .url => ['u', 'r', 'l', '/']
  | .term => ['t', 'e', 'r', 'm', '/']
  | .title => ['t', 'i', 't', 'l', 'e', '/']
  | .visit => ['v', 'i', 's', 'i', 't', '/']
  | .bookmark => ['b', 'o', 'o', 'k', 'm', 'a', 'r', 'k', '/']

/-- `keyGen[ns](key)`: encode a raw key under a namespace. -/
def keyGen (ns : Namespace) (key : Str) : Str := nsHead ns ++ key

/-- `removeKeyType`: strip the leading `(term|title|visit|url|domain|tag|bookmark)/`
prefix, trying the regex alternatives in source order at the start of the key;
a key matching none of them is returned unchanged. -/
def removeKeyType (key : Str) : Str :=
  if isPre (nsHead .term) key then key.drop 5
  else if isPre (nsHead .title) key then key.drop 6
  else if isPre (nsHead .visit) key then key.drop 6
  else if isPre (nsHead .url) key then key.drop 4
  else if isPre (nsHead .domain) key then key.drop 7
  else if isPre (nsHead .tag) key then key.drop 4
  else if isPre (nsHead .bookmark) key then key.drop 9
  else key

/-! ## The ordered key-value store, point lookups -/

/-- Outcome of a point `get` against the underlying store: a stored value,
a not-found condition (`error.notFound` in the source), or any other store
error. -/
inductive GetResult (ε α : Type) where
  | found (v : α)
  | notFound
  | err (e : ε)
  deriving DecidableEq, Repr

/-- A store, observed through point gets: each key yields a `GetResult`. -/
def Store (ε α : Type) := Str → GetResult ε α

/-- `initSingleLookup({defaultValue})` applied to a key: point-get the key;
a not-found condition degrades to `defaultValue` (default `null`, modelled
as `none`); any other store error propagates. -/
def initSingleLookup {ε α : Type} (store : Store ε α) (defaultValue : Option α)
    (key : Str) : Except ε (Option α) :=
  match store key with
  | .found v => .ok (some v)
  | .notFound => .ok defaultValue
  | .err e => .error e

/-- `initLookupByKeys({defaultValue})` applied to an array of keys: a single
lookup per requested key (the source runs them with bounded concurrency
through `promise-limit`; the result entries are in request order, and any
rejection rejects the whole lookup — modelled here as left-to-right
traversal propagating the first error). -/
def initLookupByKeys {ε α : Type} (store : Store ε α) (defaultValue : Option α) :
    List Str → Except ε (List (Str × Option α))
  | [] => .ok []
  | k :: ks =>
    match initSingleLookup store defaultValue k with
    | .error e => .error e
    | .ok v =>
      match initLookupByKeys store defaultValue ks with
      | .error e => .error e
      | .ok rest => .ok ((k, v) :: rest)

/-- Whether a point get failed with an error other than not-found. -/
def isErr {ε α : Type} : GetResult ε α → Bool
  | .err _ => true
  | _ => false

/-- The value a lookup records for a requested key: the stored value when
present, the configured default when the store reports not-found. -/
def lookupExpected {ε α : Type} (store : Store ε α) (defaultValue : Option α)
    (k : Str) : Option α :=
  match store k with
  | .found v => some v
  | _ => defaultValue

/-- Failure of `fetchExistingPage`: the thrown `Error` carrying the supplied
page ID when no document exists, or a propagated store error. -/
inductive FetchErr (ε : Type) where
  | notFoundPage (pageId : Str)
  | store (e : ε)
  deriving DecidableEq, Repr

/-- `fetchExistingPage(pageId)`: look the supplied `pageId` up via
`initSingleLookup()` (default options, so `defaultValue = null`); if the
result is `null` throw the not-found error carrying `pageId`, else return
the document. -/
def fetchExistingPage {ε α : Type} (store : Store ε α) (pageId : Str) :
    Except (FetchErr ε) α :=
  match initSingleLookup store none pageId with
  | .error e => .error (.store e)
  | .ok none => .error (.notFoundPage pageId)
  | .ok (some v) => .ok v

/-- A concrete store holding exactly one record, under the key `page/p`. -/
def store4 : Store Unit Str := fun k =>
  if k = "page/p".toList then .found ("doc".toList) else .notFound

/-- A concrete store with one record under `term/a` and a store error (other
than not-found) on the key `bad`. -/
def store5 : Store Bool Str := fun k =>
  if k = "term/a".toList then .found ("1".toList)
  else if k = "bad".toList then .err true
  else .notFound

/-! ## The write serializer -/

/-- A unit of work pushed on the index queue: it runs against the shared
index state and finishes with its own outcome (result or failure) and the
state it leaves behind. -/
def ITask (σ ε β : Type) := σ → Except ε β × σ

/-- Modelled from the spec: `indexQueue`, imported from the index module
(whose source is not in this repository slice), is the single shared FIFO
operation queue; units of work pushed by calls to a
`makeIndexFnConcSafe`-wrapped function are executed one at a time in push
order, each call resolving or rejecting with exactly its own unit's outcome.
`runQueue` executes the queued units in push order against the shared state,
returning the list of per-unit outcomes (in push order) and the final
state; a unit's failure is recorded in its own slot and execution
continues with the next unit. -/
def runQueue {σ ε β : Type} : List (ITask σ ε β) → σ → List (Except ε β) × σ
  | [], s => ([], s)
  | t :: ts, s =>
    let r := t s
    let rest := runQueue ts r.2
    (r.1 :: rest.1, rest.2)

/-- The shared state after a list of queued units has been executed. -/
def stateAfter {σ ε β : Type} (ts : List (ITask σ ε β)) (s : σ) : σ :=
  (runQueue ts s).2

/-- The wrapped `safeFn` produced by `makeIndexFnConcSafe(fn)`, invoked once
per element of `calls` (in submission order): each call pushes the unit of
work `fn(...args)` on the shared queue and is resolved or rejected with that
unit's own outcome. The model returns every call's resolution, in
submission order, together with the final shared state. -/
def makeIndexFnConcSafe {α σ ε β : Type} (fn : α → ITask σ ε β)
    (calls : List α) (s : σ) : List (Except ε β) × σ :=
  runQueue (calls.map fn) s

/-! ## Latest-activity augmentation -/

/-- A reverse-index lookup document: page ID, visit-timestamp keys and
bookmark-timestamp keys (in chronological key order, as constructed). -/
structure IndexLookupDoc where
  id : Str
  visits : List Str
  bookmarks : List Str
  deriving DecidableEq, Repr

/-- The result of `augmentIndexLookupDoc`: a shallow copy of the document
plus the `latest` field. -/
structure AugmentedDoc where
  doc : IndexLookupDoc
  latest : Str
  deriving DecidableEq, Repr

/-- `getLatestVisitOrBookmark({visits, bookmarks})`: the last element of
`visits` unless `visits` is empty, else the last element of `bookmarks`;
indexing past the end yields `undefined`, modelled as `none`. -/
def getLatestVisitOrBookmark (doc : IndexLookupDoc) : Option Str :=
  if doc.visits.length = 0 then doc.bookmarks.getLast?
  else doc.visits.getLast?

/-- `augmentIndexLookupDoc(doc)`: spread `doc` into a shallow copy and attach
`latest = removeKeyType(getLatestVisitOrBookmark(doc))`; when the selected
timestamp is `undefined` (both sets empty), `removeKeyType` throws — the
operation fails, modelled as `none`. -/
def augmentIndexLookupDoc (doc : IndexLookupDoc) : Option AugmentedDoc :=
  (getLatestVisitOrBookmark doc).map
    (fun ts => { doc := doc, latest := removeKeyType ts })

/-! ## Range scans -/

/-- JS string comparison (code-unit-wise lexicographic `<=`), used by the
store to bound range scans. -/
def strLe : Str → Str → Bool
  | [], _ => true
  | _ :: _, [] => false
  | a :: as, b :: bs =>
    if a.val < b.val then true
    else if b.val < a.val then false
    else strLe as bs

/-- The maximal sort character `'￿'` appended to close a prefix range. -/
def maxSortChar : Char := '￿'

/-- Membership of a key in the scanned range
`gte: termKey, lte: termKey + '￿'` of `termRangeLookup`. -/
def inTermRange (termKey k : Str) : Bool :=
  strLe termKey k && strLe k (termKey ++ [maxSortChar])

/-- The sequence of data events a bounded read stream delivers for
`termRangeLookup`'s range: the store's entries restricted to the range, in
store order. -/
def rangeEvents {α : Type} (termKey : Str) (db : List (Str × α)) : List (Str × α) :=
  db.filter (fun e => inTermRange termKey e.1)

/-- `results.set(key, value)` on a JS `Map` whose key is already present:
update the value in place, preserving entry order. -/
def setVal {α : Type} (m : List (Str × Option α)) (k : Str) (v : α) :
    List (Str × Option α) :=
  m.map (fun p => if p.1 = k then (p.1, some v) else p)

/-- The `data` handler of `termRangeLookup`: record the scanned entry's
value only when its key appears in the candidate set, else ignore it. -/
def termStep {α : Type} (termsSet : List Str) (m : List (Str × Option α))
    (e : Str × α) : List (Str × Option α) :=
  if e.1 ∈ termsSet then setVal m e.1 e.2 else m

/-- `termRangeLookup(termKey, termsSet)` against a store `db`: initialise the
result map with every candidate key bound to `null` (`none`), then scan the
range `[termKey, termKey + '￿']`, recording the value of every scanned
entry whose key is a member of `termsSet`. -/
def termRangeLookup {α : Type} (termKey : Str) (termsSet : List Str)
    (db : List (Str × α)) : List (Str × Option α) :=
  (rangeEvents termKey db).foldl (termStep termsSet)
    (termsSet.map (fun k => (k, none)))

/-- A value stored under a `visit/` or `bookmark/` key: a bare page-id
string (legacy shape) or a structured record `{pageId, ...meta}`. -/
inductive TsVal where
  | bare (pageId : Str)
  | struct (pageId : Str) (meta : List (Str × Str))
  deriving DecidableEq, Repr

/-- `normalizeTimestampVals(value)`: a primitive string becomes
`{pageId: value, meta: {}}`; a structured record is split into its `pageId`
and the remaining fields. -/
def normalizeTimestampVals : TsVal → Str × List (Str × Str)
  | .bare p => (p, [])
  | .struct p m => (p, m)

/-- The record `{latest: removeKeyType(key), ...meta}` collected per distinct
page ID by `reverseRangeLookup`. -/
structure RevDoc where
  latest : Str
  meta : List (Str × Str)
  deriving DecidableEq, Repr, Inhabited

/-- `data.size >= limit` where `limit` defaults to `Infinity` (`none`). -/
def atLimit (n : Nat) : Option Nat → Bool
  | none => false
  | some l => decide (l ≤ n)

/-- Observable outcome of a `reverseRangeLookup` scan: the resolved map (as
an insertion-ordered association list keyed by page ID), the number of data
events the handler received, and whether the stream was destroyed early. -/
structure RevScan where
  data : List (Str × RevDoc)
  visited : Nat
  destroyed : Bool
  deriving DecidableEq, Repr

/-- The map update one delivered `{key, value}` event causes: normalize the
value; if its page ID is already a key of `data` nothing changes, else
`{latest: removeKeyType(key), ...meta}` is appended under the page ID
(insertion order, as a JS `Map`). -/
def revNext (data : List (Str × RevDoc)) (k : Str) (v : TsVal) :
    List (Str × RevDoc) :=
  if (data.map Prod.fst).contains (normalizeTimestampVals v).1 then data
  else data ++ [((normalizeTimestampVals v).1,
    ⟨removeKeyType k, (normalizeTimestampVals v).2⟩)]

/-- `reverseRangeLookup({limit, ...bounds})`, processing the finite sequence
of data events the descending bounded stream delivers: on each event, if
`data.size >= limit` the stream is destroyed and the map resolved as is;
otherwise the event's update is applied to the map. -/
def reverseRangeLookup (limit : Option Nat) :
    List (Str × TsVal) → List (Str × RevDoc) → RevScan
  | [], data => ⟨data, 0, false⟩
  | (k, v) :: rest, data =>
    if atLimit data.length limit then ⟨data, 1, true⟩
    else
      let r := reverseRangeLookup limit rest (revNext data k v)
      ⟨r.data, r.visited + 1, r.destroyed⟩

/-- The specification's description of the reverse range lookup: record the
first occurrence of each distinct page ID during the descending scan, and
stop — visiting nothing further — as soon as `limit` distinct page IDs have
been collected. Returns the described map and the number of events the
described scan visits. -/
def revLookupSpec (limit : Option Nat) :
    List (Str × TsVal) → List (Str × RevDoc) → List (Str × RevDoc) × Nat
  | [], data => (data, 0)
  | (k, v) :: rest, data =>
    if atLimit data.length limit then (data, 0)
    else
      let r := revLookupSpec limit rest (revNext data k v)
      (r.1, r.2 + 1)

/-- A concrete descending stream of three visit entries with three distinct
page IDs, as a store in the range `visit/0 .. visit/9` would deliver. -/
def events3 : List (Str × TsVal) :=
  [("visit/3".toList, .bare ("a".toList)),
   ("visit/2".toList, .bare ("b".toList)),
   ("visit/1".toList, .bare ("c".toList))]

/-! ## Term extraction -/

/-- JS `String.prototype.toLowerCase`, modelled as per-character
lowercasing. -/
def jsToLower (s : Str) : Str := s.map Char.toLower

/-- `extractContent(content, {separator, key})`: split `content` on the
separator, lowercase each piece, encode it with `keyGen[key]`, and keep only
terms that do not end with `'/'`. -/
def extractContent (content : Str) (separator : Char) (key : Namespace) :
    List Str :=
  ((content.splitOn separator).map (fun w => keyGen key (jsToLower w))).filter
    (fun t => !(t.getLast? == some '/'))

/-! ## The scorer -/

/-- A page-score record as consumed by `boostScores`: the `latest` field (a
timestamp string) and any other fields the record carries. -/
structure ScoreVal where
  latest : Str
  rest : List (Str × Str)
  deriving DecidableEq, Repr

/-- Numeric value of one decimal digit character. -/
def digitVal? (c : Char) : Option Nat :=
  if '0' ≤ c ∧ c ≤ '9' then some (c.toNat - '0'.toNat) else none

/-- Decimal value of a non-empty all-digit string. -/
def digitsVal? (s : Str) : Option Nat :=
  if s = [] then none
  else
    s.foldl
      (fun acc c =>
        match acc, digitVal? c with
        | some a, some d => some (10 * a + d)
        | _, _ => none)
      (some 0)

/-- JS numeric coercion `+s` of a string, modelled for decimal integer
strings: the empty string coerces to `0`, an optional `'-'` sign followed by
decimal digits coerces to the signed value, and any other string is `NaN`
(`none`). -/
def jsStringToNumber (s : Str) : Option Int :=
  if s = [] then some 0
  else
    match s with
    | '-' :: tl => (digitsVal? tl).map (fun n => -(n : Int))
    | _ => (digitsVal? s).map (fun n => (n : Int))

/-- JS `Number.prototype.toFixed()` (zero fraction digits): round to the
nearest integer, ties to the larger value. Arithmetic is modelled over the
exact rationals. -/
def jsToFixed0 (q : ℚ) : Int := ⌊q + 1 / 2⌋

/-- Decimal string of an integer, as JS renders an integral number. -/
def intToStr : Int → Str
  | .ofNat n => Nat.toDigits 10 n
  | .negSucc n => '-' :: Nat.toDigits 10 (n + 1)

/-- `boostScores(pageScoresMap, boost)`: with `boost === 0`, return the map
itself; otherwise, for every entry whose `latest` coerces to a number,
re-bind its page ID to the object `{latest: newScore.toFixed()}` (and only
that field), leaving entries whose `latest` is `NaN` untouched. -/
def boostScores (m : List (Str × ScoreVal)) (boost : ℚ) :
    List (Str × ScoreVal) :=
  if boost = 0 then m
  else
    m.map (fun e =>
      match jsStringToNumber e.2.latest with
      | some n => (e.1, ⟨intToStr (jsToFixed0 ((n : ℚ) * (1 + boost))), []⟩)
      | none => e)

/-- A concrete page-score map: a numeric entry (`p`) carrying an extra
field, and an entry (`q`) whose `latest` does not parse as a number. -/
def m9 : List (Str × ScoreVal) :=
  [("p".toList, ⟨"10".toList, [("extra".toList, "1".toList)]⟩),
   ("q".toList, ⟨"abc".toList, [("r".toList, "2".toList)]⟩)]

/-! ## Helper lemmas -/

theorem isPre_append (p t : Str) : isPre p (p ++ t) = true := by
  induction p with
  | nil => rfl
  | cons a as ih => simp [isPre, ih]

theorem runQueue_length {σ ε β : Type} (ts : List (ITask σ ε β)) (s : σ) :
    (runQueue ts s).1.length = ts.length := by
  induction ts generalizing s with
  | nil => rfl
  | cons t ts ih => simp [runQueue, ih]

theorem runQueue_get? {σ ε β : Type} (ts : List (ITask σ ε β)) (s : σ)
    (i : Nat) :
    (runQueue ts s).1.get? i
      = (ts.get? i).map (fun t => (t (stateAfter (ts.take i) s)).1) := by
  induction ts generalizing s i with
  | nil => simp [runQueue]
  | cons t ts ih =>
    cases i with
    | zero => simp [runQueue, stateAfter]
    | succ i => simpa [runQueue, stateAfter] using ih ((t s).2) i

theorem lookup_init {α : Type} (termsSet : List Str) (k : Str)
    (hk : k ∈ termsSet) :
    List.lookup k (termsSet.map (fun t => (t, (none : Option α))))
      = some none := by
  induction termsSet with
  | nil => cases hk
  | cons a as ih =>
    by_cases hka : k = a
    · simp [List.lookup, hka]
    · rcases List.mem_cons.mp hk with h | h
      · exact absurd h hka
      · simpa [List.lookup, beq_eq_false_iff_ne.mpr hka] using ih h

theorem lookup_cons_self {α : Type} (k : Str) (b : α) (l : List (Str × α)) :
    List.lookup k ((k, b) :: l) = some b := by
  simp [List.lookup]

theorem lookup_cons_ne {α : Type} (k p1 : Str) (b : α) (l : List (Str × α))
    (h : k ≠ p1) : List.lookup k ((p1, b) :: l) = List.lookup k l := by
  simp [List.lookup, beq_eq_false_iff_ne.mpr h]

theorem setVal_cons_eq {α : Type} (p2 : Option α) (m : List (Str × Option α))
    (k' : Str) (v : α) :
    setVal ((k', p2) :: m) k' v = (k', some v) :: setVal m k' v := by
  simp [setVal]

theorem setVal_cons_ne {α : Type} (p1 : Str) (p2 : Option α)
    (m : List (Str × Option α)) (k' : Str) (v : α) (h : p1 ≠ k') :
    setVal ((p1, p2) :: m) k' v = (p1, p2) :: setVal m k' v := by
  simp [setVal, h]

theorem lookup_setVal {α : Type} (m : List (Str × Option α)) (k k' : Str)
    (v : α) :
    List.lookup k (setVal m k' v)
      = if k = k' then (List.lookup k m).map (fun _ => some v)
        else List.lookup k m := by
  induction m with
  | nil => by_cases h : k = k' <;> simp [setVal, h]
  | cons p m ih =>
    obtain ⟨p1, p2⟩ := p
    by_cases h1 : p1 = k'
    · subst h1
      rw [setVal_cons_eq]
      by_cases h2 : k = p1
      · subst h2
        rw [lookup_cons_self, lookup_cons_self]
        simp
      · rw [lookup_cons_ne _ _ _ _ h2, lookup_cons_ne _ _ _ _ h2, ih]
    · rw [setVal_cons_ne _ _ _ _ _ h1]
      by_cases h2 : k = p1
      · subst h2
        rw [lookup_cons_self, lookup_cons_self, if_neg h1]
      · rw [lookup_cons_ne _ _ _ _ h2, lookup_cons_ne _ _ _ _ h2, ih]

theorem setVal_keys {α : Type} (m : List (Str × Option α)) (k : Str) (v : α) :
    (setVal m k v).map Prod.fst = m.map Prod.fst := by
  simp only [setVal, List.map_map]
  apply List.map_congr_left
  intro p _
  by_cases h : p.1 = k <;> simp [h]

theorem termFold_keys {α : Type} (entries : List (Str × α))
    (termsSet : List Str) (m : List (Str × Option α)) :
    ((entries.foldl (termStep termsSet) m).map Prod.fst) = m.map Prod.fst := by
  induction entries generalizing m with
  | nil => rfl
  | cons e es ih =>
    rw [List.foldl_cons, ih]
    by_cases h : e.1 ∈ termsSet <;> simp [termStep, h, setVal_keys]

theorem lookup_eq_none_of_not_mem {α : Type} (l : List (Str × α)) (k : Str)
    (h : k ∉ l.map Prod.fst) : List.lookup k l = none := by
  induction l with
  | nil => rfl
  | cons p l ih =>
    obtain ⟨p1, p2⟩ := p
    simp only [List.map_cons, List.mem_cons] at h
    push_neg at h
    simp [List.lookup, beq_eq_false_iff_ne.mpr h.1, ih h.2]

theorem lookup_isSome_of_mem {α : Type} (l : List (Str × α)) (k : Str)
    (h : k ∈ l.map Prod.fst) : ∃ x, List.lookup k l = some x := by
  induction l with
  | nil => cases h
  | cons p l ih =>
    obtain ⟨p1, p2⟩ := p
    by_cases hk : k = p1
    · subst hk
      exact ⟨p2, lookup_cons_self k p2 l⟩
    · rw [List.map_cons] at h
      rcases List.mem_cons.mp h with h' | h'
      · exact absurd h' hk
      · obtain ⟨x, hx⟩ := ih h'
        exact ⟨x, by rw [lookup_cons_ne _ _ _ _ hk, hx]⟩

theorem termFold_lookup {α : Type} (entries : List (Str × α))
    (termsSet : List Str) (k : Str) (m : List (Str × Option α))
    (hk : k ∈ termsSet) (hm : k ∈ m.map Prod.fst)
    (hnd : (entries.map Prod.fst).Nodup) :
    List.lookup k (entries.foldl (termStep termsSet) m)
      = (List.lookup k entries).elim (List.lookup k m)
          (fun v => some (some v)) := by
  induction entries generalizing m with
  | nil => simp
  | cons e es ih =>
    obtain ⟨e1, e2⟩ := e
    simp only [List.map_cons, List.nodup_cons] at hnd
    obtain ⟨he1, hnds⟩ := hnd
    rw [List.foldl_cons]
    by_cases hke : k = e1
    · subst hke
      have hstep : termStep termsSet m (k, e2) = setVal m k e2 := by
        simp [termStep, hk]
      have hnone : List.lookup k es = none :=
        lookup_eq_none_of_not_mem es k he1
      obtain ⟨x, hx⟩ := lookup_isSome_of_mem m k hm
      rw [hstep, ih (setVal m k e2) (by rw [setVal_keys]; exact hm) hnds,
        hnone, lookup_setVal]
      simp [List.lookup, hx]
    · have hlook : List.lookup k ((e1, e2) :: es) = List.lookup k es := by
        simp [List.lookup, beq_eq_false_iff_ne.mpr hke]
      rw [hlook]
      by_cases hg : e1 ∈ termsSet
      · have hstep : termStep termsSet m (e1, e2) = setVal m e1 e2 := by
          simp [termStep, hg]
        rw [hstep, ih (setVal m e1 e2) (by rw [setVal_keys]; exact hm) hnds,
          lookup_setVal]
        simp [hke]
      · have hstep : termStep termsSet m (e1, e2) = m := by
          simp [termStep, hg]
        rw [hstep, ih m hm hnds]

theorem revNext_length_le (data : List (Str × RevDoc)) (k : Str)
    (v : TsVal) : (revNext data k v).length ≤ data.length + 1 := by
  rw [revNext]
  split <;> simp

theorem revScan_data_eq (limit : Option Nat) (events : List (Str × TsVal))
    (data : List (Str × RevDoc)) :
    (reverseRangeLookup limit events data).data
      = (revLookupSpec limit events data).1 := by
  induction events generalizing data with
  | nil => rfl
  | cons e rest ih =>
    obtain ⟨k, v⟩ := e
    by_cases h : atLimit data.length limit
    · simp [reverseRangeLookup, revLookupSpec, h]
    · simp [reverseRangeLookup, revLookupSpec, h, ih]

theorem revScan_visited_le (limit : Option Nat) (events : List (Str × TsVal))
    (data : List (Str × RevDoc)) :
    (reverseRangeLookup limit events data).visited
      ≤ (revLookupSpec limit events data).2 + 1 := by
  induction events generalizing data with
  | nil => simp [reverseRangeLookup, revLookupSpec]
  | cons e rest ih =>
    obtain ⟨k, v⟩ := e
    by_cases h : atLimit data.length limit
    · simp [reverseRangeLookup, revLookupSpec, h]
    · have := ih (revNext data k v)
      simp [reverseRangeLookup, revLookupSpec, h]
      omega

theorem revScan_visited_le_length (limit : Option Nat)
    (events : List (Str × TsVal)) (data : List (Str × RevDoc)) :
    (reverseRangeLookup limit events data).visited ≤ events.length := by
  induction events generalizing data with
  | nil => simp [reverseRangeLookup]
  | cons e rest ih =>
    obtain ⟨k, v⟩ := e
    by_cases h : atLimit data.length limit
    · simp [reverseRangeLookup, h]
    · have := ih (revNext data k v)
      simp [reverseRangeLookup, h]
      omega

theorem revScan_size_le (l : Nat) (events : List (Str × TsVal))
    (data : List (Str × RevDoc)) (hd : data.length ≤ l) :
    (reverseRangeLookup (some l) events data).data.length ≤ l := by
  induction events generalizing data with
  | nil => simpa [reverseRangeLookup] using hd
  | cons e rest ih =>
    obtain ⟨k, v⟩ := e
    by_cases h : atLimit data.length (some l)
    · simpa [reverseRangeLookup, h] using hd
    · have hlt : data.length < l := by
        simp [atLimit] at h
        omega
      have hd' : (revNext data k v).length ≤ l := by
        have := revNext_length_le data k v
        omega
      simpa [reverseRangeLookup, h] using ih (revNext data k v) hd'

theorem revScan_destroys (limit : Option Nat) (events : List (Str × TsVal))
    (data : List (Str × RevDoc))
    (h : (revLookupSpec limit events data).2 < events.length) :
    (reverseRangeLookup limit events data).destroyed = true ∧
    (reverseRangeLookup limit events data).visited
      = (revLookupSpec limit events data).2 + 1 := by
  induction events generalizing data with
  | nil => simp [revLookupSpec] at h
  | cons e rest ih =>
    obtain ⟨k, v⟩ := e
    by_cases hl : atLimit data.length limit
    · simp [reverseRangeLookup, revLookupSpec, hl]
    · have h' : (revLookupSpec limit rest (revNext data k v)).2
          < rest.length := by
        simp [revLookupSpec, hl] at h
        omega
      have hgoal := ih (revNext data k v) h'
      have e1 : (reverseRangeLookup limit ((k, v) :: rest) data).visited
          = (reverseRangeLookup limit rest (revNext data k v)).visited + 1 := by
        simp [reverseRangeLookup, hl]
      have e2 : (revLookupSpec limit ((k, v) :: rest) data).2
          = (revLookupSpec limit rest (revNext data k v)).2 + 1 := by
        simp [revLookupSpec, hl]
      refine ⟨?_, ?_⟩
      · simpa [reverseRangeLookup, hl] using hgoal.1
      · rw [e1, e2, hgoal.2]

theorem nsHead_getLast? (ns : Namespace) : (nsHead ns).getLast? = some '/' := by
  cases ns <;> rfl

theorem keyGen_getLast? (ns : Namespace) (f : Str) :
    (keyGen ns f).getLast? = if f = [] then some '/' else f.getLast? := by
  rw [keyGen, List.getLast?_append]
  by_cases h : f = []
  · simp [h, nsHead_getLast?]
  · cases hf : f.getLast? with
    | none =>
      exact absurd (List.getLast?_eq_none_iff.mp hf) h
    | some x => simp [h]

/-! ## The claims -/

/-- **C1.** (spec-modelled FIFO queue) For every operation `fn` wrapped by
`makeIndexFnConcSafe` and every sequence of calls of the wrapped function:
the queued units are executed one at a time (the model executes the queue
sequentially, so at most one unit is ever in flight), every call's unit is
enqueued on the single shared FIFO queue, the list of resolutions has one
entry per call and is in enqueue order, and call `i` resolves (or fails)
with exactly its own unit's outcome, run against the state left by the
units enqueued before it — so one unit's failure is delivered only to its
own caller and does not block or corrupt subsequent units. -/
theorem makeIndexFnConcSafe_fifo {α σ ε β : Type} (fn : α → ITask σ ε β)
    (calls : List α) (s : σ) :
    ((makeIndexFnConcSafe fn calls s).1.length = calls.length) ∧
    (∀ i : Nat,
      (makeIndexFnConcSafe fn calls s).1.get? i
        = (calls.get? i).map
            (fun a => (fn a (stateAfter ((calls.take i).map fn) s)).1)) := by
  refine ⟨?_, fun i => ?_⟩
  · simpa [makeIndexFnConcSafe] using runQueue_length (calls.map fn) s
  · simpa [makeIndexFnConcSafe, List.getElem?_map, List.map_take] using
      runQueue_get? (calls.map fn) s i

set_option maxRecDepth 10000 in
/-- One hundred serializer-wrapped increments of a shared counter leave the
counter at exactly 100 (no lost updates). -/
theorem runQueue_hundred_increments :
    (runQueue
        (List.replicate 100
          (fun n => ((Except.ok (n + 1) : Except Unit Nat), n + 1)))
        0).2 = 100 := by
  decide

/-- **C6.** For every namespace among the seven encoder namespaces and every
raw token, decoding the encoded key returns the original token:
`removeKeyType (keyGen ns token) = token`. -/
theorem removeKeyType_keyGen (ns : Namespace) (t : Str) :
    removeKeyType (keyGen ns t) = t := by
  cases ns <;>
    simp [keyGen, removeKeyType, nsHead, isPre, isPre_append]

/-- **C7, counterexample.** The decoder does not strip the `page/` prefix:
`removeKeyType "page/a" = "page/a"`, not the suffix `"a"` the claim
requires, because `page` is not among the regex alternatives. -/
theorem removeKeyType_page_not_stripped :
    removeKeyType ("page/a".toList) = "page/a".toList ∧
      removeKeyType ("page/a".toList) ≠ "a".toList := by
  decide

/-- **C7, amended.** The decoder strips the leading namespace prefix for the
seven namespaces `term/`, `title/`, `domain/`, `tag/`, `url/`, `visit/`,
`bookmark/` (returning the suffix), while a key carrying none of those
prefixes — `page/` keys included — passes through unchanged; `removeKeyType`
is a total function, so decoding never throws. -/
theorem removeKeyType_spec :
    (∀ (ns : Namespace) (t : Str), removeKeyType (nsHead ns ++ t) = t) ∧
    (∀ key : Str, (∀ ns : Namespace, isPre (nsHead ns) key = false) →
      removeKeyType key = key) := by
  constructor
  · intro ns t
    cases ns <;> simp [removeKeyType, nsHead, isPre, isPre_append]
  · intro key h
    simp [removeKeyType, h .term, h .title, h .visit, h .url, h .domain,
      h .tag, h .bookmark]

/-- **C7, witness.** The amended statement at concrete keys: `"term/x"` is
stripped to `"x"`, and `"page/a"`, matching none of the seven prefixes,
passes through unchanged. -/
theorem removeKeyType_spec_witness :
    removeKeyType (nsHead .term ++ "x".toList) = "x".toList ∧
      removeKeyType ("page/a".toList) = "page/a".toList :=
  ⟨removeKeyType_spec.1 .term "x".toList,
    removeKeyType_spec.2 ("page/a".toList) (fun ns => by cases ns <;> decide)⟩

/-- **C10.** `augmentIndexLookupDoc` attaches, on a shallow copy of the
document, `latest` equal to the namespace-stripped last element of the
visit set when that set is non-empty (regardless of the bookmark set), else
the namespace-stripped last element of the bookmark set; when both sets are
empty the selected timestamp is absent and the operation fails (the source
calls `.replace` on `undefined`) instead of producing a document with a
valid `latest` field. -/
theorem augmentIndexLookupDoc_spec (doc : IndexLookupDoc) :
    (∀ t, doc.visits.getLast? = some t →
      augmentIndexLookupDoc doc
        = some { doc := doc, latest := removeKeyType t }) ∧
    (doc.visits = [] → ∀ t, doc.bookmarks.getLast? = some t →
      augmentIndexLookupDoc doc
        = some { doc := doc, latest := removeKeyType t }) ∧
    (doc.visits = [] → doc.bookmarks = [] →
      augmentIndexLookupDoc doc = none) := by
  refine ⟨fun t ht => ?_, fun hv t ht => ?_, fun hv hb => ?_⟩
  · have hne : doc.visits ≠ [] := by
      intro h
      rw [h] at ht
      exact Option.noConfusion ht
    simp [augmentIndexLookupDoc, getLatestVisitOrBookmark,
      List.length_eq_zero, hne, ht]
  · simp [augmentIndexLookupDoc, getLatestVisitOrBookmark, hv, ht]
  · simp [augmentIndexLookupDoc, getLatestVisitOrBookmark, hv, hb]

/-- **C2, counterexample.** The iteration is not cancelled as soon as the
number of distinct page IDs reaches `limit`: with `limit = 2` against a
descending stream of three entries with three distinct page IDs, the limit
is reached after the second delivered entry (the described scan visits 2
entries), yet the handler receives a third entry — only then is the stream
destroyed — so the scan continues one entry past the limit. -/
theorem reverseRangeLookup_visits_past_limit :
    (revLookupSpec (some 2) events3 []).2 = 2 ∧
    (reverseRangeLookup (some 2) events3 []).visited = 3 := by
  decide

/-- **C2, amended.** `reverseRangeLookup` returns exactly the mapping the
specification describes — keyed by distinct page ID, each mapped to
`{latest: namespace-stripped key of its first occurrence in the descending
scan, ...meta}` with later duplicates dropped — holding at most `limit`
entries; the underlying iteration is cancelled at the first entry delivered
after `limit` distinct page IDs have been collected (rather than
immediately upon collecting the `limit`-th), so the scan visits at most one
entry beyond the minimal collecting prefix and never visits more events
than the stream delivers. -/
theorem reverseRangeLookup_spec (limit : Option Nat)
    (events : List (Str × TsVal)) :
    ((reverseRangeLookup limit events []).data
        = (revLookupSpec limit events []).1) ∧
    ((reverseRangeLookup limit events []).visited
        ≤ (revLookupSpec limit events []).2 + 1) ∧
    ((reverseRangeLookup limit events []).visited ≤ events.length) ∧
    (∀ l, limit = some l →
      (reverseRangeLookup limit events []).data.length ≤ l) ∧
    ((revLookupSpec limit events []).2 < events.length →
      (reverseRangeLookup limit events []).destroyed = true ∧
      (reverseRangeLookup limit events []).visited
        = (revLookupSpec limit events []).2 + 1) := by
  refine ⟨revScan_data_eq limit events [], revScan_visited_le limit events [],
    revScan_visited_le_length limit events [], fun l hl => ?_,
    fun h => revScan_destroys limit events [] h⟩
  subst hl
  exact revScan_size_le l events [] (by simp)

/-- **C2, witness.** The amended statement at the concrete stream `events3`
(three entries, three distinct page IDs) with `limit = 2`: the resulting
map equals the described one, holds at most 2 entries, and the stream is
destroyed after visiting exactly one entry beyond the collecting prefix. -/
theorem reverseRangeLookup_spec_witness :
    ((reverseRangeLookup (some 2) events3 []).data
        = (revLookupSpec (some 2) events3 []).1) ∧
    ((reverseRangeLookup (some 2) events3 []).data.length ≤ 2) ∧
    ((reverseRangeLookup (some 2) events3 []).destroyed = true ∧
      (reverseRangeLookup (some 2) events3 []).visited
        = (revLookupSpec (some 2) events3 []).2 + 1) :=
  ⟨(reverseRangeLookup_spec (some 2) events3).1,
    (reverseRangeLookup_spec (some 2) events3).2.2.2.1 2 rfl,
    (reverseRangeLookup_spec (some 2) events3).2.2.2.2 (by decide)⟩

/-- **C3.** For every namespace prefix and candidate key set,
`termRangeLookup` returns a mapping whose key set equals the candidate set
exactly (no extras, never partial): a candidate key appearing as an entry
within the scanned prefix range maps to its stored value, and every other
candidate key maps to the explicit absent value `null` (`none`); the
hypothesis states that the store's keys are unique within the scanned
range, as they are for a key-value store. -/
theorem termRangeLookup_covers {α : Type} (termKey : Str)
    (termsSet : List Str) (db : List (Str × α))
    (hnd : (db.map Prod.fst).Nodup) :
    ((termRangeLookup termKey termsSet db).map Prod.fst = termsSet) ∧
    (∀ k, k ∈ termsSet →
      List.lookup k (termRangeLookup termKey termsSet db)
        = some (List.lookup k (rangeEvents termKey db))) := by
  have hnd' : ((rangeEvents termKey db).map Prod.fst).Nodup :=
    hnd.sublist ((List.filter_sublist db).map Prod.fst)
  constructor
  · rw [termRangeLookup, termFold_keys]
    simp [Function.comp_def]
  · intro k hk
    have hm : k ∈ (termsSet.map (fun t => (t, (none : Option α)))).map
        Prod.fst := by
      simpa [List.map_map] using hk
    rw [termRangeLookup, termFold_lookup _ _ _ _ hk hm hnd',
      lookup_init termsSet k hk]
    cases hv : List.lookup k (rangeEvents termKey db) <;> simp

/-- **C3, witness.** The specification's example: looking `term/foo` and
`term/bar` up under the prefix `term/` against a store holding only
`term/foo -> "X"` yields exactly the candidate set as keys, with
`term/foo -> "X"` and `term/bar -> null`. -/
theorem termRangeLookup_covers_witness :
    ((termRangeLookup ("term/".toList)
          ["term/foo".toList, "term/bar".toList]
          [("term/foo".toList, "X".toList)]).map Prod.fst
        = ["term/foo".toList, "term/bar".toList]) ∧
    (List.lookup ("term/foo".toList)
        (termRangeLookup ("term/".toList)
          ["term/foo".toList, "term/bar".toList]
          [("term/foo".toList, "X".toList)])
      = some (some ("X".toList))) ∧
    (List.lookup ("term/bar".toList)
        (termRangeLookup ("term/".toList)
          ["term/foo".toList, "term/bar".toList]
          [("term/foo".toList, "X".toList)])
      = some none) := by
  have h := termRangeLookup_covers ("term/".toList)
    ["term/foo".toList, "term/bar".toList]
    [("term/foo".toList, "X".toList)] (by decide)
  refine ⟨h.1, ?_, ?_⟩
  · rw [h.2 ("term/foo".toList) (by decide)]
    decide
  · rw [h.2 ("term/bar".toList) (by decide)]
    decide

/-- **C4, counterexample.** `fetchExistingPage` does not point-get
`page/<pageId>`: against a store whose only key is `page/p`,
`fetchExistingPage("p")` fails with the not-found error carrying `"p"`
instead of returning the record stored under `page/p` — the lookup uses the
supplied `pageId` as the key, without prepending `page/`. -/
theorem fetchExistingPage_no_page_prefix :
    store4 ("page/p".toList) = .found ("doc".toList) ∧
      fetchExistingPage store4 ("p".toList)
        = .error (.notFoundPage ("p".toList)) := by
  constructor <;> rfl

/-- **C4, amended.** `fetchExistingPage(pageId)` point-gets the store key
`pageId` exactly as supplied (no `page/` prefix is added): its result
depends only on the store's answer at that single key; when that key is
absent it fails with the NotFound condition carrying the requested
`pageId`, when present it returns the stored record, and any other store
error propagates. -/
theorem fetchExistingPage_spec {ε α : Type} (store : Store ε α)
    (pageId : Str) :
    (∀ store' : Store ε α, store' pageId = store pageId →
      fetchExistingPage store' pageId = fetchExistingPage store pageId) ∧
    (store pageId = .notFound →
      fetchExistingPage store pageId = .error (.notFoundPage pageId)) ∧
    (∀ v, store pageId = .found v →
      fetchExistingPage store pageId = .ok v) ∧
    (∀ e, store pageId = .err e →
      fetchExistingPage store pageId = .error (.store e)) := by
  refine ⟨fun store' h => ?_, fun h => ?_, fun v h => ?_, fun e h => ?_⟩ <;>
    simp [fetchExistingPage, initSingleLookup, h]

/-- **C4, witness.** The amended statement at concrete inputs: against
`store4`, the absent key `missing` fails with NotFound carrying
`"missing"`, and the present key `page/p` returns its record. -/
theorem fetchExistingPage_spec_witness :
    fetchExistingPage store4 ("missing".toList)
      = .error (.notFoundPage ("missing".toList)) ∧
    fetchExistingPage store4 ("page/p".toList) = .ok ("doc".toList) :=
  ⟨(fetchExistingPage_spec store4 ("missing".toList)).2.1 (by decide),
    (fetchExistingPage_spec store4 ("page/p".toList)).2.2.1 ("doc".toList)
      (by decide)⟩

/-- **C5.** The batched lookup returns a mapping with an entry for every
requested key, in request order — never silently omitting any — where a key
maps to its stored value when present and to the configured default
(`null` when unset) when the store reports not-found; and a store error
other than not-found on any requested key makes the whole lookup fail by
propagating that error. -/
theorem initLookupByKeys_spec {ε α : Type} (store : Store ε α)
    (defaultValue : Option α) (keys : List Str) :
    ((∀ k ∈ keys, isErr (store k) = false) →
      initLookupByKeys store defaultValue keys
        = .ok (keys.map (fun k => (k, lookupExpected store defaultValue k)))) ∧
    (∀ ks₁ k ks₂ (e : ε), keys = ks₁ ++ k :: ks₂ →
      (∀ k' ∈ ks₁, isErr (store k') = false) →
      store k = .err e →
      initLookupByKeys store defaultValue keys = .error e) := by
  constructor
  · induction keys with
    | nil => intro _; rfl
    | cons k ks ih =>
      intro h
      have hk := h k (List.mem_cons_self k ks)
      have hks : ∀ k' ∈ ks, isErr (store k') = false :=
        fun k' h' => h k' (List.mem_cons_of_mem _ h')
      cases hsk : store k with
      | found v =>
        simp [initLookupByKeys, initSingleLookup, hsk, lookupExpected, ih hks]
      | notFound =>
        simp [initLookupByKeys, initSingleLookup, hsk, lookupExpected, ih hks]
      | err e => simp [isErr, hsk] at hk
  · intro ks₁ k ks₂ e hkeys h he
    subst hkeys
    induction ks₁ with
    | nil => simp [initLookupByKeys, initSingleLookup, he]
    | cons a as ih =>
      have ha := h a (List.mem_cons_self a as)
      have has : ∀ k' ∈ as, isErr (store k') = false :=
        fun k' h' => h k' (List.mem_cons_of_mem _ h')
      cases hsa : store a with
      | found v =>
        simp [initLookupByKeys, initSingleLookup, hsa, ih has]
      | notFound =>
        simp [initLookupByKeys, initSingleLookup, hsa, ih has]
      | err e' => simp [isErr, hsa] at ha

/-- **C5, witness.** Against `store5`: requesting `term/a` (present) and
`nope` (absent) yields an entry for both — the stored value and the `null`
default — and requesting `term/a` and `bad` (a non-not-found store error)
fails with that error. -/
theorem initLookupByKeys_spec_witness :
    initLookupByKeys store5 none ["term/a".toList, "nope".toList]
      = .ok [("term/a".toList, some ("1".toList)), ("nope".toList, none)] ∧
    initLookupByKeys store5 none ["term/a".toList, "bad".toList]
      = .error true := by
  constructor
  · have h := (initLookupByKeys_spec store5 none
      ["term/a".toList, "nope".toList]).1 (by decide)
    rw [h]
    rfl
  · exact (initLookupByKeys_spec store5 none
      ["term/a".toList, "bad".toList]).2 ["term/a".toList] ("bad".toList) []
      true rfl (by decide) (by decide)

/-- **C8, counterexample.** A token whose folded form is non-empty can still
be discarded: the single token `"a/"` folds to the non-empty `"a/"`, yet
its encoding `term/a/` ends with `'/'` and is filtered out, so
`extractContent "a/"` is empty — the discard condition is not "empty after
the namespace prefix". -/
theorem extractContent_drops_nonempty_token :
    extractContent ("a/".toList) ' ' .term = [] ∧
      jsToLower ("a/".toList) ≠ [] := by
  decide

/-- **C8, amended.** `extractContent` splits the content on the separator,
case-folds each piece, encodes it under the namespace, and discards a
resulting token if and only if its encoded form ends with `'/'` — that is,
exactly the tokens whose folded piece is empty or itself ends with `'/'`.
In particular no token ending with `'/'` (and hence no empty-after-fold
token) ever appears in the output, and every token whose folded piece is
non-empty and does not end in `'/'` does appear. -/
theorem extractContent_spec (content : Str) (sep : Char) (ns : Namespace) :
    (∀ t ∈ extractContent content sep ns, t.getLast? ≠ some '/') ∧
    (∀ w ∈ content.splitOn sep,
      (keyGen ns (jsToLower w) ∈ extractContent content sep ns ↔
        jsToLower w ≠ [] ∧ (jsToLower w).getLast? ≠ some '/')) := by
  constructor
  · intro t ht
    rw [extractContent] at ht
    have hp := (List.mem_filter.mp ht).2
    simpa [beq_eq_false_iff_ne] using hp
  · intro w hw
    constructor
    · intro hmem
      rw [extractContent] at hmem
      have hp := (List.mem_filter.mp hmem).2
      rw [keyGen_getLast?] at hp
      by_cases h : jsToLower w = []
      · simp [h] at hp
      · refine ⟨h, ?_⟩
        simpa [h, beq_eq_false_iff_ne] using hp
    · rintro ⟨hne, hnl⟩
      rw [extractContent]
      apply List.mem_filter.mpr
      refine ⟨List.mem_map_of_mem _ hw, ?_⟩
      simp [keyGen_getLast?, hne, hnl]

/-- **C8, witness.** At the concrete content `"hello x/"` split on a space:
the piece `"hello"` (non-empty after folding, no trailing slash) appears
encoded in the output, while the piece `"x/"` is discarded. -/
theorem extractContent_spec_witness :
    (keyGen .term (jsToLower ("hello".toList))
        ∈ extractContent ("hello x/".toList) ' ' .term) ∧
    (keyGen .term (jsToLower ("x/".toList))
        ∉ extractContent ("hello x/".toList) ' ' .term) := by
  constructor
  · exact ((extractContent_spec ("hello x/".toList) ' ' .term).2
      ("hello".toList) (by decide)).mpr (by decide)
  · intro hmem
    exact absurd (((extractContent_spec ("hello x/".toList) ' ' .term).2
      ("x/".toList) (by decide)).mp hmem) (by decide)

/-- **C9, counterexample.** `boostScores` does not leave the other fields of
a numeric entry unchanged: with boost 1, the entry
`p -> {latest: "10", extra: "1"}` becomes `{latest: "20"}` alone — the
`extra` field is dropped, because the source re-binds the page ID to the
object `{latest: newScore.toFixed()}`. -/
theorem boostScores_drops_other_fields :
    boostScores m9 1
      = [("p".toList, ⟨"20".toList, []⟩),
         ("q".toList, ⟨"abc".toList, [("r".toList, "2".toList)]⟩)] ∧
    ([] : List (Str × Str)) ≠ [("extra".toList, "1".toList)] := by
  refine ⟨?_, by decide⟩
  have h10 : jsStringToNumber ("10".toList) = some 10 := by decide
  have habc : jsStringToNumber ("abc".toList) = none := by decide
  have hfix : jsToFixed0 (((10 : Int) : ℚ) * (1 + 1)) = 20 := by
    rw [jsToFixed0]
    norm_num [Int.floor_eq_iff]
  rw [boostScores, if_neg (by norm_num : (1 : ℚ) ≠ 0)]
  simp only [m9, List.map_cons, List.map_nil, h10, habc]
  rw [hfix]
  decide

/-- **C9, amended.** `boostScores` with `boostFactor = 0` returns the input
mapping itself (identity); with any nonzero boost it preserves keys, order
and length, leaves every entry whose `latest` does not parse as a number
entirely unchanged, and replaces the whole value of every entry whose
`latest` parses as `n` by the single-field object
`{latest: (n * (1 + boost)).toFixed()}` — any other fields of such an entry
are dropped, not preserved. -/
theorem boostScores_spec (m : List (Str × ScoreVal)) (b : ℚ) (hb : b ≠ 0) :
    (boostScores m 0 = m) ∧
    ((boostScores m b).length = m.length) ∧
    (∀ (i : Nat) (k : Str) (sv : ScoreVal), m[i]? = some (k, sv) →
      (jsStringToNumber sv.latest = none →
        (boostScores m b)[i]? = some (k, sv)) ∧
      (∀ n : Int, jsStringToNumber sv.latest = some n →
        (boostScores m b)[i]?
          = some (k, ⟨intToStr (jsToFixed0 ((n : ℚ) * (1 + b))),
              ([] : List (Str × Str))⟩))) := by
  refine ⟨by rw [boostScores, if_pos rfl], ?_, ?_⟩
  · rw [boostScores, if_neg hb]
    exact List.length_map m _
  · intro i k sv hi
    have hmap : (boostScores m b)[i]?
        = some ((fun e : Str × ScoreVal =>
            match jsStringToNumber e.2.latest with
            | some n => (e.1,
                (⟨intToStr (jsToFixed0 ((n : ℚ) * (1 + b))),
                  ([] : List (Str × Str))⟩ : ScoreVal))
            | none => e) (k, sv)) := by
      rw [boostScores, if_neg hb, List.getElem?_map, hi]
      rfl
    constructor
    · intro hn
      rw [hmap]
      simp [hn]
    · intro n hn
      rw [hmap]
      simp [hn]

/-- **C9, witness.** At the concrete map `m9`: boost 0 is the identity, and
with boost 1 the non-numeric entry `q` is left entirely unchanged, its
other field included. -/
theorem boostScores_spec_witness :
    boostScores m9 0 = m9 ∧
    (boostScores m9 1)[1]?
      = some ("q".toList, ⟨"abc".toList, [("r".toList, "2".toList)]⟩) :=
  ⟨(boostScores_spec m9 1 (by norm_num)).1,
    ((boostScores_spec m9 1 (by norm_num)).2.2 1 ("q".toList)
      ⟨"abc".toList, [("r".toList, "2".toList)]⟩ rfl).1 (by decide)⟩

/-- **C10, witness.** The three cases of `augmentIndexLookupDoc_spec` at
concrete documents: visits win when present, bookmarks are used when visits
are empty, and a document with both sets empty fails. -/
theorem augmentIndexLookupDoc_spec_witness :
    (augmentIndexLookupDoc
        ⟨"p".toList, ["visit/5".toList], ["bookmark/9".toList]⟩
      = some { doc := ⟨"p".toList, ["visit/5".toList], ["bookmark/9".toList]⟩,
               latest := removeKeyType ("visit/5".toList) }) ∧
    (augmentIndexLookupDoc ⟨"p".toList, [], ["bookmark/9".toList]⟩
      = some { doc := ⟨"p".toList, [], ["bookmark/9".toList]⟩,
               latest := removeKeyType ("bookmark/9".toList) }) ∧
    (augmentIndexLookupDoc ⟨"p".toList, [], []⟩ = none) :=
  ⟨(augmentIndexLookupDoc_spec _).1 ("visit/5".toList) (by decide),
    (augmentIndexLookupDoc_spec _).2.1 rfl ("bookmark/9".toList) (by decide),
    (augmentIndexLookupDoc_spec _).2.2 rfl rfl⟩

end Memex
